import Mathlib

/-!
Verification of the caption-editor transcription core
(`packages/api-server/src/caption_editor_api/routers/captions.py`).

The embedding models:
* the data model (`CaptionSegment`, `CaptionFile`, `TranscriptionRequest`,
  `TranscriptionResponse`, provider transcripts and words);
* the word-to-segment grouping algorithm inlined in
  `get_transcription_result` (the "Segmenter");
* the job registry and the poll handler `get_transcription_result`;
* the submit handler `transcribe_video`.

Machine integers of the source (millisecond timestamps) are modelled as `ℤ`;
the floating-point second values obtained by `x / 1000.0` are modelled as
exact rationals `ℚ`.  Python exceptions are modelled with `Except`;
the global mutable dictionaries (`transcription_jobs`, `video_files`) are
modelled as association lists threaded through the handlers.
-/

namespace CaptionEditor

/-- A provider word (`current_transcript.words` element): `text`, and integer
millisecond timestamps.  The field `stop` embeds the source's `word.end`
(`end` is a Lean keyword). -/
structure Word where
  text : String
  start : ℤ
  stop : ℤ
deriving DecidableEq, Repr

/-- `CaptionSegment` pydantic model: `id`, `start_time`/`end_time` in seconds,
`text`. -/
structure CaptionSegment where
  id : String
  start_time : ℚ
  end_time : ℚ
  text : String
deriving DecidableEq, Repr

/-- `CaptionFile` pydantic model. -/
structure CaptionFile where
  segments : List CaptionSegment
  language : Option String := some "en"
  format : Option String := some "vtt"
deriving DecidableEq, Repr

/-- `TranscriptionRequest` pydantic model. -/
structure TranscriptionRequest where
  video_id : Option String := none
  video_url : Option String := none
  language : Option String := some "en"
deriving DecidableEq, Repr

/-- `TranscriptionResponse` pydantic model. -/
structure TranscriptionResponse where
  status : String
  job_id : Option String := none
  captions : Option CaptionFile := none
  message : String
deriving DecidableEq, Repr

/-- The `" ".join(...)` of Python, written as direct recursion on the list. -/
def joinSpace : List String → String
  | [] => ""
  | [x] => x
  | x :: y :: t => x ++ " " ++ joinSpace (y :: t)

/-- `word.text.endswith(('.', '!', '?'))`: all three suffixes are single
characters, so this is a check on the last character. -/
def isEndOfSentence (t : String) : Bool :=
  match t.data.getLast? with
  | some c => c = '.' || c = '!' || c = '?'
  | none => false

/-- The word-grouping loop of `get_transcription_result` (lines 210-238 of
the router).  State: the remaining words, `segment_start_time`
(`Option ℚ`, `None` between segments), `current_segment_words`
(accumulated texts), and `segment_id`.  `lw` is `current_transcript.words[-1]`;
the close condition is
`should_end_segment or word == current_transcript.words[-1]` with
`should_end_segment = is_end_of_sentence or segment_duration >= 5.0`. -/
def segmentLoop (lw : Word) : List Word → Option ℚ → List String → ℕ → List CaptionSegment
  | [], _, _, _ => []
  | w :: ws, st?, acc, sid =>
    let st := st?.getD ((w.start : ℚ) / 1000)
    let acc' := acc ++ [w.text]
    if isEndOfSentence w.text ∨ (w.stop : ℚ) / 1000 - st ≥ 5 ∨ w = lw then
      ⟨toString sid, st, (w.stop : ℚ) / 1000, joinSpace acc'⟩ ::
        segmentLoop lw ws none [] (sid + 1)
    else
      segmentLoop lw ws (some st) acc' sid

/-- The Segmenter: converts the provider's word list into caption segments.
Empty input produces no segments (the `for` loop body never runs). -/
def segment (words : List Word) : List CaptionSegment :=
  match words.getLast? with
  | none => []
  | some lw => segmentLoop lw words none [] 1

/-- Ghost variant of `segmentLoop` that records the grouping of the words
themselves (same scan, same close condition; the accumulator keeps the words
instead of their texts).  Used to express which words constitute a segment. -/
def segmentWordsLoop (lw : Word) : List Word → Option ℚ → List Word → List (List Word)
  | [], _, _ => []
  | w :: ws, st?, acc =>
    let st := st?.getD ((w.start : ℚ) / 1000)
    let acc' := acc ++ [w]
    if isEndOfSentence w.text ∨ (w.stop : ℚ) / 1000 - st ≥ 5 ∨ w = lw then
      acc' :: segmentWordsLoop lw ws none []
    else
      segmentWordsLoop lw ws (some st) acc'

/-- The word groups underlying `segment`. -/
def segmentWords (words : List Word) : List (List Word) :=
  match words.getLast? with
  | none => []
  | some lw => segmentWordsLoop lw words none []

/-- Start time (in seconds) of the segment built from group `g`. -/
def groupStart (g : List Word) : ℚ :=
  match g.head? with
  | some w => (w.start : ℚ) / 1000
  | none => 0

/-- End time (in seconds) of the segment built from group `g`. -/
def groupEnd (g : List Word) : ℚ :=
  match g.getLast? with
  | some w => (w.stop : ℚ) / 1000
  | none => 0

/-- Precondition: every word has `start ≤ end` (sane ranges). -/
def WordTimesOK (ws : List Word) : Prop := ∀ w ∈ ws, w.start ≤ w.stop

/-- Precondition: monotonically non-decreasing start times. -/
def StartsMono (ws : List Word) : Prop :=
  List.Pairwise (fun a b => a.start ≤ b.start) ws

/-- Consecutive words do not overlap: each word ends no later than the next
one starts. -/
def WordsSeparated (ws : List Word) : Prop :=
  List.Chain' (fun a b => a.stop ≤ b.start) ws

instance : DecidablePred WordTimesOK := fun ws =>
  inferInstanceAs (Decidable (∀ w ∈ ws, w.start ≤ w.stop))

instance : DecidablePred StartsMono := fun ws =>
  inferInstanceAs (Decidable (List.Pairwise _ ws))

instance : DecidablePred WordsSeparated := fun ws =>
  inferInstanceAs (Decidable (List.Chain' _ ws))

example : segment [⟨"Hello", 0, 500⟩, ⟨"world.", 500, 1000⟩] =
    [⟨"1", 0, 1, "Hello world."⟩] := by
  norm_num [segment, segmentLoop, joinSpace,
    (by decide : isEndOfSentence "Hello" = false),
    (by decide : isEndOfSentence "world." = true)]
  decide

example : segment [⟨"a", 0, 0⟩, ⟨"b", 0, 10000⟩] = [⟨"1", 0, 10, "a b"⟩] := by
  norm_num [segment, segmentLoop, joinSpace,
    (by decide : isEndOfSentence "a" = false),
    (by decide : isEndOfSentence "b" = false)]
  decide

example : segmentWords [⟨"a", 0, 0⟩, ⟨"b", 0, 10000⟩] =
    [[⟨"a", 0, 0⟩, ⟨"b", 0, 10000⟩]] := by
  norm_num [segmentWords, segmentWordsLoop,
    (by decide : isEndOfSentence "a" = false),
    (by decide : isEndOfSentence "b" = false)]

example : segment [] = [] := rfl

/-! ### Structural lemmas about the scan -/

/-- Every group emitted by the scan is non-empty (a segment is closed only
right after a word was appended). -/
theorem segmentWordsLoop_ne_nil (lw : Word) :
    ∀ (ws : List Word) (st? : Option ℚ) (acc : List Word),
      ∀ g ∈ segmentWordsLoop lw ws st? acc, g ≠ [] := by
  intro ws
  induction ws with
  | nil => intro st? acc g hg; simp [segmentWordsLoop] at hg
  | cons w ws ih =>
    intro st? acc g hg
    simp only [segmentWordsLoop] at hg
    split at hg
    · rcases List.mem_cons.mp hg with h | h
      · subst h; simp
      · exact ih none [] g h
    · exact ih _ _ g hg

/-- The groups are a partition of the input: concatenating them in order
gives back the word list.  The hypotheses record the loop invariants: the
accumulator is flushed at the end because the last word always closes, and
`lw` is the last word of the remaining input. -/
theorem segmentWordsLoop_flatten (lw : Word) :
    ∀ (ws : List Word) (st? : Option ℚ) (acc : List Word),
      (ws = [] → acc = []) → (ws ≠ [] → ws.getLast? = some lw) →
      (segmentWordsLoop lw ws st? acc).flatten = acc ++ ws := by
  intro ws
  induction ws with
  | nil => intro st? acc h0 _; simp [segmentWordsLoop, h0 rfl]
  | cons w ws ih =>
    intro st? acc h0 hlast
    have hl : (w :: ws).getLast? = some lw := hlast (by simp)
    have hlast' : ws ≠ [] → ws.getLast? = some lw := by
      intro hne
      cases ws with
      | nil => exact absurd rfl hne
      | cons y t => rw [← List.getLast?_cons_cons]; exact hl
    simp only [segmentWordsLoop]
    split
    · rw [List.flatten_cons, ih none [] (fun _ => rfl) hlast']
      simp
    · rename_i hcl
      have hwne : ws ≠ [] := by
        intro he; subst he
        simp only [List.getLast?_singleton, Option.some.injEq] at hl
        exact hcl (Or.inr (Or.inr hl))
      rw [ih (some _) (acc ++ [w]) (fun he => absurd he hwne) hlast']
      simp

/-- Invariant tying `segment_start_time` to the accumulator: the start time
is `None` exactly between segments, and otherwise it is the start of the
first accumulated word. -/
def accConsistent : Option ℚ → List Word → Prop
  | none, acc => acc = []
  | some st, acc => ∃ a t, acc = a :: t ∧ st = (a.start : ℚ) / 1000

theorem accConsistent_concat {st? : Option ℚ} {acc : List Word} (w : Word)
    (hc : accConsistent st? acc) :
    accConsistent (some (st?.getD ((w.start : ℚ) / 1000))) (acc ++ [w]) := by
  cases st? with
  | none =>
    have : acc = [] := hc
    subst this
    exact ⟨w, [], rfl, rfl⟩
  | some st =>
    obtain ⟨a, t, rfl, rfl⟩ := hc
    exact ⟨a, t ++ [w], by simp, rfl⟩

theorem groupStart_concat {st? : Option ℚ} {acc : List Word} (w : Word)
    (hc : accConsistent st? acc) :
    groupStart (acc ++ [w]) = st?.getD ((w.start : ℚ) / 1000) := by
  cases st? with
  | none =>
    have : acc = [] := hc
    subst this
    simp [groupStart]
  | some st =>
    obtain ⟨a, t, rfl, rfl⟩ := hc
    simp [groupStart]

theorem groupEnd_concat (acc : List Word) (w : Word) :
    groupEnd (acc ++ [w]) = (w.stop : ℚ) / 1000 := by
  simp [groupEnd, List.getLast?_concat]

/-- Link between the segment-producing loop and its ghost word-grouping
variant: segments and groups correspond pointwise, the segment's times being
the first accumulated word's start and the closing word's end, and its text
the space-join of the group's texts. -/
theorem segmentLoop_eq_groups (lw : Word) :
    ∀ (ws : List Word) (st? : Option ℚ) (acc : List Word) (sid : ℕ),
      accConsistent st? acc →
      (segmentLoop lw ws st? (acc.map Word.text) sid).map
          (fun s => (s.start_time, s.end_time, s.text)) =
        (segmentWordsLoop lw ws st? acc).map
          (fun g => (groupStart g, groupEnd g, joinSpace (g.map Word.text))) := by
  intro ws
  induction ws with
  | nil => intro st? acc sid _; simp [segmentLoop, segmentWordsLoop]
  | cons w ws ih =>
    intro st? acc sid hc
    simp only [segmentLoop, segmentWordsLoop]
    have hmap : acc.map Word.text ++ [w.text] = (acc ++ [w]).map Word.text := by simp
    by_cases h : isEndOfSentence w.text = true ∨
        (w.stop : ℚ) / 1000 - st?.getD ((w.start : ℚ) / 1000) ≥ 5 ∨ w = lw
    · rw [if_pos h, if_pos h]
      simp only [List.map_cons]
      have htail := ih none [] (sid + 1) rfl
      simp only [List.map_nil] at htail
      rw [htail, hmap, groupStart_concat w hc, groupEnd_concat]
    · rw [if_neg h, if_neg h]
      rw [hmap, ih (some _) (acc ++ [w]) sid (accConsistent_concat w hc)]

/-- Every word of a group except the last one ends strictly less than five
seconds after the group's start (otherwise the scan would have closed the
segment at that word). -/
theorem segmentWordsLoop_dropLast_lt (lw : Word) :
    ∀ (ws : List Word) (st? : Option ℚ) (acc : List Word),
      accConsistent st? acc →
      (∀ v ∈ acc, ∀ s : ℚ, st? = some s → (v.stop : ℚ) / 1000 - s < 5) →
      ∀ g ∈ segmentWordsLoop lw ws st? acc, ∀ v ∈ g.dropLast,
        (v.stop : ℚ) / 1000 - groupStart g < 5 := by
  intro ws
  induction ws with
  | nil => intro st? acc _ _ g hg; simp [segmentWordsLoop] at hg
  | cons w ws ih =>
    intro st? acc hc hacc g hg
    simp only [segmentWordsLoop] at hg
    by_cases h : isEndOfSentence w.text = true ∨
        (w.stop : ℚ) / 1000 - st?.getD ((w.start : ℚ) / 1000) ≥ 5 ∨ w = lw
    · rw [if_pos h] at hg
      rcases List.mem_cons.mp hg with hgg | hgg
      · subst hgg
        intro v hv
        rw [List.dropLast_concat] at hv
        rw [groupStart_concat w hc]
        cases hst : st? with
        | none =>
          rw [hst] at hc
          have : acc = [] := hc
          subst this; simp at hv
        | some s =>
          subst hst
          exact hacc v hv s rfl
      · exact ih none [] rfl (by intro v hv; simp at hv) g hgg
    · rw [if_neg h] at hg
      refine ih (some _) (acc ++ [w]) (accConsistent_concat w hc) ?_ g hg
      intro v hv s hs
      have hs' : s = st?.getD ((w.start : ℚ) / 1000) := by
        exact (Option.some.injEq _ _ ▸ hs).symm
      subst hs'
      rcases List.mem_append.mp hv with hv | hv
      · cases hst : st? with
        | none =>
          rw [hst] at hc
          have : acc = [] := hc
          subst this; simp at hv
        | some s' =>
          subst hst
          exact hacc v hv s' rfl
      · have hv' : v = w := by simpa using hv
        subst hv'
        have := not_or.mp h
        have h2 := not_or.mp this.2
        exact lt_of_not_ge h2.1

/-! ### Segment-level corollaries -/

theorem segmentWords_flatten (ws : List Word) : (segmentWords ws).flatten = ws := by
  unfold segmentWords
  cases hl : ws.getLast? with
  | none =>
    have : ws = [] := by cases ws with
      | nil => rfl
      | cons a t => simp [List.getLast?_eq_none_iff] at hl
    subst this; rfl
  | some lw =>
    exact segmentWordsLoop_flatten lw ws none [] (fun _ => rfl) (fun _ => hl)

theorem segmentWords_groups_ne_nil (ws : List Word) :
    ∀ g ∈ segmentWords ws, g ≠ [] := by
  unfold segmentWords
  cases hl : ws.getLast? with
  | none => intro g hg; simp at hg
  | some lw => exact segmentWordsLoop_ne_nil lw ws none []

theorem segment_map_eq (ws : List Word) :
    (segment ws).map (fun s => (s.start_time, s.end_time, s.text)) =
      (segmentWords ws).map
        (fun g => (groupStart g, groupEnd g, joinSpace (g.map Word.text))) := by
  unfold segment segmentWords
  cases hl : ws.getLast? with
  | none => rfl
  | some lw =>
    have := segmentLoop_eq_groups lw ws none [] 1 rfl
    simpa using this

theorem segmentWords_dropLast_lt (ws : List Word) :
    ∀ g ∈ segmentWords ws, ∀ v ∈ g.dropLast,
      (v.stop : ℚ) / 1000 - groupStart g < 5 := by
  unfold segmentWords
  cases hl : ws.getLast? with
  | none => intro g hg; simp at hg
  | some lw =>
    exact segmentWordsLoop_dropLast_lt lw ws none [] rfl (by intro v hv; simp at hv)

theorem mem_of_mem_group {ws : List Word} {g : List Word} {v : Word}
    (hg : g ∈ segmentWords ws) (hv : v ∈ g) : v ∈ ws := by
  rw [← segmentWords_flatten ws]
  exact List.mem_flatten.mpr ⟨g, hg, hv⟩

/-- A word-level `Pairwise` fact transfers to the groups: it holds within
every group and across any two groups in order. -/
theorem segmentWords_pairwise_of_words {r : Word → Word → Prop} (ws : List Word)
    (hp : ws.Pairwise r) :
    (∀ g ∈ segmentWords ws, g.Pairwise r) ∧
      (segmentWords ws).Pairwise (fun g₁ g₂ => ∀ a ∈ g₁, ∀ b ∈ g₂, r a b) := by
  have h : List.Pairwise r (segmentWords ws).flatten := by
    rw [segmentWords_flatten]; exact hp
  exact List.pairwise_flatten.mp h

theorem div1000_mono {a b : ℤ} (h : a ≤ b) : (a : ℚ) / 1000 ≤ (b : ℚ) / 1000 := by
  have h' : (a : ℚ) ≤ (b : ℚ) := by exact_mod_cast h
  linarith

theorem exists_head_of_ne_nil (g : List Word) (h : g ≠ []) :
    ∃ a, a ∈ g ∧ groupStart g = (a.start : ℚ) / 1000 := by
  cases g with
  | nil => exact absurd rfl h
  | cons a t => exact ⟨a, by simp, rfl⟩

theorem exists_getLast_of_ne_nil (g : List Word) (h : g ≠ []) :
    ∃ b, b ∈ g ∧ groupEnd g = (b.stop : ℚ) / 1000 := by
  cases hl : g.getLast? with
  | none =>
    cases g with
    | nil => exact absurd rfl h
    | cons a t => simp [List.getLast?_eq_none_iff] at hl
  | some b =>
    exact ⟨b, List.mem_of_mem_getLast? hl, by simp [groupEnd, hl]⟩

/-- Within a group sorted by non-decreasing start times whose words all have
sane ranges, the derived segment has `start_time ≤ end_time`. -/
theorem groupStart_le_groupEnd (g : List Word) (hne : g ≠ [])
    (hsane : ∀ w ∈ g, w.start ≤ w.stop)
    (hp : g.Pairwise (fun a b => a.start ≤ b.start)) :
    groupStart g ≤ groupEnd g := by
  cases g with
  | nil => exact absurd rfl hne
  | cons x t =>
    obtain ⟨b, hb, hsb⟩ := exists_getLast_of_ne_nil (x :: t) (by simp)
    have hGS : groupStart (x :: t) = (x.start : ℚ) / 1000 := rfl
    rw [hGS, hsb]
    apply div1000_mono
    rcases List.mem_cons.mp hb with rfl | hbt
    · exact hsane b (by simp)
    · have hxb : x.start ≤ b.start := (List.pairwise_cons.mp hp).1 b hbt
      exact le_trans hxb (hsane b hb)

/-! ### `joinSpace` algebra -/

theorem joinSpace_cons_of_ne_nil (x : String) (B : List String) (h : B ≠ []) :
    joinSpace (x :: B) = x ++ " " ++ joinSpace B := by
  cases B with
  | nil => exact absurd rfl h
  | cons y t => rfl

theorem joinSpace_append (A : List String) (hA : A ≠ []) :
    ∀ B : List String, B ≠ [] →
      joinSpace (A ++ B) = joinSpace A ++ " " ++ joinSpace B := by
  induction A with
  | nil => exact absurd rfl hA
  | cons x t ih =>
    intro B hB
    cases t with
    | nil => simpa using joinSpace_cons_of_ne_nil x B hB
    | cons y u =>
      rw [List.cons_append,
        joinSpace_cons_of_ne_nil x ((y :: u) ++ B) (by simp),
        ih (by simp) B hB,
        joinSpace_cons_of_ne_nil x (y :: u) (by simp)]
      simp [String.append_assoc]

theorem joinSpace_flatten (gs : List (List String)) (h : ∀ g ∈ gs, g ≠ []) :
    joinSpace (gs.map joinSpace) = joinSpace gs.flatten := by
  induction gs with
  | nil => rfl
  | cons g gs ih =>
    cases gs with
    | nil => simp [joinSpace]
    | cons g2 t =>
      have hg : g ≠ [] := h g (by simp)
      have hflat : (g2 :: t).flatten ≠ [] := by
        rw [List.flatten_ne_nil_iff]
        exact ⟨g2, by simp, h g2 (by simp)⟩
      rw [List.map_cons, List.flatten_cons,
        joinSpace_cons_of_ne_nil _ _ (by simp),
        ih (fun g' hg' => h g' (List.mem_cons_of_mem _ hg')),
        joinSpace_append g hg _ hflat]

/-! ### Word-order lemmas -/

/-- Sane ranges plus consecutive separation give pairwise separation. -/
theorem sep_pairwise (ws : List Word) (h1 : WordTimesOK ws) (hc : WordsSeparated ws) :
    ws.Pairwise (fun a b => a.stop ≤ b.start) := by
  induction ws with
  | nil => exact List.Pairwise.nil
  | cons x t ih =>
    cases t with
    | nil => simp
    | cons y u =>
      have hc' := List.chain'_cons.mp hc
      have hpt : (y :: u).Pairwise (fun a b => a.stop ≤ b.start) :=
        ih (fun w hw => h1 w (List.mem_cons_of_mem _ hw)) hc'.2
      refine List.Pairwise.cons ?_ hpt
      intro b hb
      rcases List.mem_cons.mp hb with rfl | hbu
      · exact hc'.1
      · have hyb : y.stop ≤ b.start := (List.pairwise_cons.mp hpt).1 b hbu
        have hy : y.start ≤ y.stop := h1 y (by simp)
        exact le_trans hc'.1 (le_trans hy hyb)

/-- Transfer of pairwise time relations from groups to segments. -/
theorem segment_pairwise_times (ws : List Word) (P : ℚ → ℚ → ℚ → ℚ → Prop)
    (hg : (segmentWords ws).Pairwise
      (fun g₁ g₂ => P (groupStart g₁) (groupEnd g₁) (groupStart g₂) (groupEnd g₂))) :
    (segment ws).Pairwise
      (fun s t => P s.start_time s.end_time t.start_time t.end_time) := by
  have h1 : ((segmentWords ws).map
      (fun g => (groupStart g, groupEnd g, joinSpace (g.map Word.text)))).Pairwise
      (fun a b : ℚ × ℚ × String => P a.1 a.2.1 b.1 b.2.1) :=
    List.pairwise_map.mpr hg
  rw [← segment_map_eq] at h1
  exact List.pairwise_map.mp h1

/-- Each segment corresponds to a group: same start, same end, text the
space-join of the group's word texts. -/
theorem segment_mem_groups {ws : List Word} {s : CaptionSegment}
    (hs : s ∈ segment ws) :
    ∃ g ∈ segmentWords ws, s.start_time = groupStart g ∧ s.end_time = groupEnd g ∧
      s.text = joinSpace (g.map Word.text) := by
  have h1 : (s.start_time, s.end_time, s.text) ∈
      (segment ws).map (fun s => (s.start_time, s.end_time, s.text)) :=
    List.mem_map_of_mem _ hs
  rw [segment_map_eq] at h1
  obtain ⟨g, hg, heq⟩ := List.mem_map.mp h1
  refine ⟨g, hg, ?_, ?_, ?_⟩
  · exact congrArg (fun p : ℚ × ℚ × String => p.1) heq.symm
  · exact congrArg (fun p : ℚ × ℚ × String => p.2.1) heq.symm
  · exact congrArg (fun p : ℚ × ℚ × String => p.2.2) heq.symm

/-! ### Concrete segmenter computations (used by witnesses and
counterexamples) -/

theorem segment_ex1 : segment [⟨"a", 0, 0⟩, ⟨"b", 0, 10000⟩] =
    [⟨"1", 0, 10, "a b"⟩] := by
  norm_num [segment, segmentLoop, joinSpace,
    (by decide : isEndOfSentence "a" = false),
    (by decide : isEndOfSentence "b" = false)]
  decide

theorem segmentWords_ex1 : segmentWords [⟨"a", 0, 0⟩, ⟨"b", 0, 10000⟩] =
    [[⟨"a", 0, 0⟩, ⟨"b", 0, 10000⟩]] := by
  norm_num [segmentWords, segmentWordsLoop,
    (by decide : isEndOfSentence "a" = false),
    (by decide : isEndOfSentence "b" = false)]

theorem segment_ex2 : segment [⟨"a.", 0, 1000⟩, ⟨"b.", 500, 600⟩] =
    [⟨"1", 0, 1, "a."⟩, ⟨"2", 1/2, 3/5, "b."⟩] := by
  norm_num [segment, segmentLoop, joinSpace,
    (by decide : isEndOfSentence "a." = true),
    (by decide : isEndOfSentence "b." = true)]
  decide

/-! ### Claims about the Segmenter -/

/-- C9: the two words "Hello" (0–500 ms) and "world." (500–1000 ms) produce
exactly one segment, with start_time 0.0 s, end_time 1.0 s and text
"Hello world.". -/
theorem C9_hello_world_segment :
    segment [⟨"Hello", 0, 500⟩, ⟨"world.", 500, 1000⟩] =
      [⟨"1", 0, 1, "Hello world."⟩] := by
  norm_num [segment, segmentLoop, joinSpace,
    (by decide : isEndOfSentence "Hello" = false),
    (by decide : isEndOfSentence "world." = true)]
  decide

/-- C6: for every non-empty word sequence the segmenter produces at least one
segment, and the segments' texts joined by single spaces reproduce the
space-joined input word texts exactly. -/
theorem C6_text_round_trip (ws : List Word) (h : ws ≠ []) :
    segment ws ≠ [] ∧
      joinSpace ((segment ws).map CaptionSegment.text) =
        joinSpace (ws.map Word.text) := by
  have hflat := segmentWords_flatten ws
  have hne : segmentWords ws ≠ [] := by
    intro he
    rw [he, List.flatten_nil] at hflat
    exact h hflat.symm
  constructor
  · intro he
    have hmap := segment_map_eq ws
    rw [he, List.map_nil] at hmap
    exact hne (List.map_eq_nil_iff.mp hmap.symm)
  · have hmap := segment_map_eq ws
    have htext : (segment ws).map CaptionSegment.text =
        (segmentWords ws).map (fun g => joinSpace (g.map Word.text)) := by
      have h2 := congrArg (List.map (fun p : ℚ × ℚ × String => p.2.2)) hmap
      simpa [List.map_map, Function.comp] using h2
    have hlist : (segmentWords ws).map (fun g => joinSpace (g.map Word.text)) =
        ((segmentWords ws).map (List.map Word.text)).map joinSpace := by
      simp [List.map_map, Function.comp]
    have hne' : ∀ g' ∈ (segmentWords ws).map (List.map Word.text), g' ≠ [] := by
      intro g' hg'
      obtain ⟨g, hg, rfl⟩ := List.mem_map.mp hg'
      simpa using segmentWords_groups_ne_nil ws g hg
    rw [htext, hlist, joinSpace_flatten _ hne', ← List.map_flatten, hflat]

/-- C6 witness at the concrete input ["Hello", "world."]. -/
theorem C6_text_round_trip_witness :
    segment [⟨"Hello", 0, 500⟩, ⟨"world.", 500, 1000⟩] ≠ [] ∧
      joinSpace ((segment [⟨"Hello", 0, 500⟩, ⟨"world.", 500, 1000⟩]).map
          CaptionSegment.text) =
        joinSpace ([⟨"Hello", 0, 500⟩, ⟨"world.", 500, 1000⟩].map Word.text) :=
  C6_text_round_trip _ (by decide)

/-- C2 as stated is false on the code: with words "a" (0–0 ms) and
"b" (0–10000 ms) — sane ranges, non-decreasing starts, no punctuation —
the scan appends "b" before checking the duration, so the single produced
segment spans 10 s yet consists of two words. -/
theorem C2_counterexample :
    ¬ (WordTimesOK [⟨"a", 0, 0⟩, ⟨"b", 0, 10000⟩] →
       StartsMono [⟨"a", 0, 0⟩, ⟨"b", 0, 10000⟩] →
       ∀ g ∈ segmentWords [⟨"a", 0, 0⟩, ⟨"b", 0, 10000⟩],
         groupEnd g - groupStart g ≤ 5 ∨
           (g.length = 1 ∧ groupEnd g - groupStart g > 5)) := by
  intro hcl
  have h := hcl (by decide) (by decide) [⟨"a", 0, 0⟩, ⟨"b", 0, 10000⟩]
    (by rw [segmentWords_ex1]; exact List.mem_singleton.mpr rfl)
  norm_num [groupEnd, groupStart] at h

/-- C2 amended: under the stated precondition, every produced segment either
spans at most 5.0 seconds or owes the excess entirely to its final word:
every word of the underlying group except the last ends strictly less than
5.0 seconds after the segment's start (a single word of duration above 5.0 s
is the special case of this). -/
theorem C2_only_last_word_overshoots (ws : List Word)
    (h1 : WordTimesOK ws) (h2 : StartsMono ws) :
    ∀ s ∈ segment ws, ∃ g ∈ segmentWords ws,
      s.start_time = groupStart g ∧ s.end_time = groupEnd g ∧
      (s.end_time - s.start_time ≤ 5 ∨
        ∀ v ∈ g.dropLast, (v.stop : ℚ) / 1000 - s.start_time < 5) := by
  intro s hs
  obtain ⟨g, hg, hst, hend, _⟩ := segment_mem_groups hs
  refine ⟨g, hg, hst, hend, Or.inr ?_⟩
  intro v hv
  rw [hst]
  exact segmentWords_dropLast_lt ws g hg v hv

/-- C2 witness: the amended claim applied at the counterexample input and its
unique segment. -/
theorem C2_only_last_word_overshoots_witness :
    ∃ g ∈ segmentWords [⟨"a", 0, 0⟩, ⟨"b", 0, 10000⟩],
      (⟨"1", 0, 10, "a b"⟩ : CaptionSegment).start_time = groupStart g ∧
      (⟨"1", 0, 10, "a b"⟩ : CaptionSegment).end_time = groupEnd g ∧
      ((⟨"1", 0, 10, "a b"⟩ : CaptionSegment).end_time -
          (⟨"1", 0, 10, "a b"⟩ : CaptionSegment).start_time ≤ 5 ∨
        ∀ v ∈ g.dropLast,
          (v.stop : ℚ) / 1000 -
            (⟨"1", 0, 10, "a b"⟩ : CaptionSegment).start_time < 5) :=
  C2_only_last_word_overshoots [⟨"a", 0, 0⟩, ⟨"b", 0, 10000⟩]
    (by decide) (by decide) ⟨"1", 0, 10, "a b"⟩ (by simp [segment_ex1])

/-- C3 as stated is false on the code: the stated precondition allows
overlapping words.  With words "a." (0–1000 ms) and "b." (500–600 ms) — sane
ranges, non-decreasing starts — the two produced segments are [0, 1] and
[0.5, 0.6]: end times decrease and the ranges overlap. -/
theorem C3_counterexample :
    ¬ (WordTimesOK [⟨"a.", 0, 1000⟩, ⟨"b.", 500, 600⟩] →
       StartsMono [⟨"a.", 0, 1000⟩, ⟨"b.", 500, 600⟩] →
       ((∀ s ∈ segment [⟨"a.", 0, 1000⟩, ⟨"b.", 500, 600⟩],
           s.start_time ≤ s.end_time) ∧
        (segment [⟨"a.", 0, 1000⟩, ⟨"b.", 500, 600⟩]).Pairwise
          (fun s t => s.start_time ≤ t.start_time) ∧
        (segment [⟨"a.", 0, 1000⟩, ⟨"b.", 500, 600⟩]).Pairwise
          (fun s t => s.end_time ≤ t.end_time) ∧
        (segment [⟨"a.", 0, 1000⟩, ⟨"b.", 500, 600⟩]).Pairwise
          (fun s t => s.end_time ≤ t.start_time))) := by
  intro hcl
  have h := hcl (by decide) (by decide)
  rw [segment_ex2] at h
  have h3 := (List.pairwise_cons.mp h.2.2.1).1
    (⟨"2", 1/2, 3/5, "b."⟩ : CaptionSegment) (by simp)
  norm_num at h3

/-- C3 amended: under the stated precondition every segment has
`start_time ≤ end_time` and the segments are ordered by start time; the
remaining two conjuncts — non-decreasing end times and pairwise
non-overlapping ranges — additionally require the words themselves not to
overlap (each word ending no later than the next starts). -/
theorem C3_segment_order (ws : List Word)
    (h1 : WordTimesOK ws) (h2 : StartsMono ws) :
    (∀ s ∈ segment ws, s.start_time ≤ s.end_time) ∧
    (segment ws).Pairwise (fun s t => s.start_time ≤ t.start_time) ∧
    (WordsSeparated ws →
      (segment ws).Pairwise (fun s t => s.end_time ≤ t.end_time) ∧
      (segment ws).Pairwise (fun s t => s.end_time ≤ t.start_time)) := by
  obtain ⟨hwithin, hcross⟩ := segmentWords_pairwise_of_words ws h2
  have hsane : ∀ g ∈ segmentWords ws, ∀ w ∈ g, w.start ≤ w.stop :=
    fun g hg w hw => h1 w (mem_of_mem_group hg hw)
  have hse : ∀ g ∈ segmentWords ws, groupStart g ≤ groupEnd g := fun g hg =>
    groupStart_le_groupEnd g (segmentWords_groups_ne_nil ws g hg)
      (hsane g hg) (hwithin g hg)
  have hPstart : ∀ s ∈ segment ws, s.start_time ≤ s.end_time := by
    intro s hs
    obtain ⟨g, hg, hst, hend, _⟩ := segment_mem_groups hs
    rw [hst, hend]
    exact hse g hg
  refine ⟨hPstart, ?_, ?_⟩
  · apply segment_pairwise_times ws (fun s _ t _ => s ≤ t)
    refine hcross.imp_of_mem ?_
    intro g₁ g₂ hg₁ hg₂ hr
    obtain ⟨a, ha, hsa⟩ :=
      exists_head_of_ne_nil g₁ (segmentWords_groups_ne_nil ws g₁ hg₁)
    obtain ⟨b, hb, hsb⟩ :=
      exists_head_of_ne_nil g₂ (segmentWords_groups_ne_nil ws g₂ hg₂)
    rw [hsa, hsb]
    exact div1000_mono (hr a ha b hb)
  · intro hsep
    have hps := sep_pairwise ws h1 hsep
    obtain ⟨_, hcross'⟩ := segmentWords_pairwise_of_words ws hps
    have hkey : (segmentWords ws).Pairwise
        (fun g₁ g₂ => groupEnd g₁ ≤ groupStart g₂) := by
      refine hcross'.imp_of_mem ?_
      intro g₁ g₂ hg₁ hg₂ hr
      obtain ⟨b, hb, hsb⟩ :=
        exists_getLast_of_ne_nil g₁ (segmentWords_groups_ne_nil ws g₁ hg₁)
      obtain ⟨a, ha, hsa⟩ :=
        exists_head_of_ne_nil g₂ (segmentWords_groups_ne_nil ws g₂ hg₂)
      rw [hsb, hsa]
      exact div1000_mono (hr b hb a ha)
    constructor
    · apply segment_pairwise_times ws (fun _ e _ f => e ≤ f)
      refine hkey.imp_of_mem ?_
      intro g₁ g₂ hg₁ hg₂ hr
      exact le_trans hr (hse g₂ hg₂)
    · exact segment_pairwise_times ws (fun _ e t _ => e ≤ t) hkey

/-- C3 witness: all four conclusions at ["Hello", "world."], whose words are
separated, with the inner implication discharged as well. -/
theorem C3_segment_order_witness :
    (∀ s ∈ segment [⟨"Hello", 0, 500⟩, ⟨"world.", 500, 1000⟩],
        s.start_time ≤ s.end_time) ∧
    (segment [⟨"Hello", 0, 500⟩, ⟨"world.", 500, 1000⟩]).Pairwise
      (fun s t => s.start_time ≤ t.start_time) ∧
    ((segment [⟨"Hello", 0, 500⟩, ⟨"world.", 500, 1000⟩]).Pairwise
        (fun s t => s.end_time ≤ t.end_time) ∧
      (segment [⟨"Hello", 0, 500⟩, ⟨"world.", 500, 1000⟩]).Pairwise
        (fun s t => s.end_time ≤ t.start_time)) := by
  have h := C3_segment_order [⟨"Hello", 0, 500⟩, ⟨"world.", 500, 1000⟩]
    (by decide) (by decide)
  exact ⟨h.1, h.2.1, h.2.2 (by simp [WordsSeparated])⟩

/-! ### Job registry and HTTP handlers -/

/-- `aai.TranscriptStatus` (the values the handler distinguishes; `queued`
stands for any further non-terminal value and falls into the `else`
branch). -/
inductive TranscriptStatus where
  | queued
  | processing
  | completed
  | error
deriving DecidableEq, Repr

/-- The provider transcript as observed by the poll handler:
`aai.Transcript.get_by_id` result with its `status`, optional `words` and
`error` fields. -/
structure Transcript where
  id : String
  status : TranscriptStatus
  words : Option (List Word) := none
  error : String := ""
deriving DecidableEq, Repr

/-- One entry of the module-level `transcription_jobs` dictionary.  The
stored `transcript` object is only ever used through its `id`, so only that
is kept. -/
structure JobInfo where
  transcript_id : String
  status : String
  video_source : String
  language : String
deriving DecidableEq, Repr

/-- The `transcription_jobs` dictionary, as an association list (first match
wins on lookup, like a Python dict with distinct keys). -/
abbrev Registry := List (String × JobInfo)

/-- `job_id in transcription_jobs` / `transcription_jobs[job_id]`. -/
def lookupJob : Registry → String → Option JobInfo
  | [], _ => none
  | (k, v) :: rest, jid => if k = jid then some v else lookupJob rest jid

/-- `transcription_jobs[job_id]["status"] = st`: in-place update of the
stored entry (all other entries are untouched). -/
def setStatus : Registry → String → String → Registry
  | [], _, _ => []
  | (k, v) :: rest, jid, st =>
      (if k = jid then (k, { v with status := st }) else (k, v)) ::
        setStatus rest jid st

/-- The stored status of a job, if present. -/
def statusOf (reg : Registry) (jid : String) : Option String :=
  (lookupJob reg jid).map JobInfo.status

/-- An HTTP error response (`HTTPException(status_code, detail)`). -/
structure HTTPError where
  status_code : ℕ
  detail : String
deriving DecidableEq, Repr

/-- `GET /captions/transcribe/{job_id}` (`get_transcription_result`).
`provider` models `aai.Transcript.get_by_id`, keyed by the stored
transcript id: `Except.error msg` is a raised exception with message `msg`.
The result is the updated registry together with either an
`HTTPException` (the 404 raised before the `try` block) or the returned
`TranscriptionResponse`; the `try/except` converts a provider exception into
a normal error-status response, leaving the registry untouched. -/
def get_transcription_result (provider : String → Except String Transcript)
    (reg : Registry) (job_id : String) :
    Registry × Except HTTPError TranscriptionResponse :=
  match lookupJob reg job_id with
  | none =>
      (reg, Except.error ⟨404, "Transcription job '" ++ job_id ++ "' not found"⟩)
  | some job_info =>
    match provider job_info.transcript_id with
    | Except.error e =>
        (reg, Except.ok ⟨"error", some job_id, none,
          "Error checking transcription status: " ++ e⟩)
    | Except.ok current_transcript =>
      match current_transcript.status with
      | TranscriptStatus.completed =>
          let segments :=
            match current_transcript.words with
            | some (w :: ws) => segment (w :: ws)
            | _ => []
          (setStatus reg job_id "completed",
            Except.ok ⟨"completed", some job_id,
              some ⟨segments, some "en", some "vtt"⟩,
              "Transcription completed successfully"⟩)
      | TranscriptStatus.error =>
          (setStatus reg job_id "error",
            Except.ok ⟨"error", some job_id, none,
              "Transcription failed: " ++ current_transcript.error⟩)
      | _ =>
          (reg, Except.ok ⟨"processing", some job_id, none,
            "Transcription is still in progress"⟩)

/-- Python truthiness of an optional string (`None` and `""` are falsy). -/
def truthy : Option String → Bool
  | none => false
  | some s => !(s = "")

/-- A Python exception value inside the `try` block of `transcribe_video`:
either a raised `HTTPException` or any other exception. -/
inductive PyExc where
  | http (status_code : ℕ) (detail : String)
  | other (msg : String)
deriving DecidableEq, Repr

/-- `str(e)`: Starlette renders an `HTTPException` as
`"{status_code}: {detail}"`. -/
def strExc : PyExc → String
  | PyExc.http c d => toString c ++ ": " ++ d
  | PyExc.other m => m

/-- Lookup in the `video_files` dictionary. -/
def lookupStr : List (String × String) → String → Option String
  | [], _ => none
  | (k, v) :: rest, key => if k = key then some v else lookupStr rest key

/-- `POST /captions/transcribe` (`transcribe_video`).  `submit` models
`transcriber.submit`, returning the provider job id or raising.  The
guard for a missing source runs before the `try` block; everything else —
including the `HTTPException(404)` raised for an unknown video id — runs
inside it, and the `except Exception` clause re-raises any caught exception
as a 500 with the exception's string appended. -/
def transcribe_video (submit : String → Except String String)
    (video_files : List (String × String)) (jobs : Registry)
    (request : TranscriptionRequest) :
    Registry × Except HTTPError TranscriptionResponse :=
  if ¬ truthy request.video_id ∧ ¬ truthy request.video_url then
    (jobs, Except.error
      ⟨400, "Either video_id (for uploaded video) or video_url is required"⟩)
  else
    let body : Except PyExc (Registry × TranscriptionResponse) :=
      (if truthy request.video_id then
        match lookupStr video_files (request.video_id.getD "") with
        | none => Except.error (PyExc.http 404
            ("Video ID '" ++ request.video_id.getD "" ++ "' not found"))
        | some path => Except.ok path
      else
        Except.ok (match request.video_url with
          | some u => u
          | none => "None")).bind
      fun video_source =>
        match submit video_source with
        | Except.error m => Except.error (PyExc.other m)
        | Except.ok job_id =>
            Except.ok ((job_id,
                (⟨job_id, "processing",
                  (if truthy request.video_id then request.video_id.getD ""
                   else request.video_url.getD ""),
                  (if truthy request.language then request.language.getD ""
                   else "en")⟩ : JobInfo)) :: jobs,
              ⟨"processing", some job_id, none,
                "Transcription started successfully with AssemblyAI"⟩)
    match body with
    | Except.ok r => (r.1, Except.ok r.2)
    | Except.error e =>
        (jobs, Except.error
          ⟨500, "Failed to start transcription: " ++ strExc e⟩)

/-- Looking up the updated job after a status write. -/
theorem lookupJob_setStatus (reg : Registry) (jid : String) (st : String) :
    lookupJob (setStatus reg jid st) jid =
      (lookupJob reg jid).map (fun ji => { ji with status := st }) := by
  induction reg with
  | nil => rfl
  | cons p rest ih =>
    obtain ⟨k, v⟩ := p
    by_cases h : k = jid
    · subst h
      rw [setStatus, if_pos rfl, lookupJob, if_pos rfl, lookupJob, if_pos rfl]
      rfl
    · rw [setStatus, if_neg h, lookupJob, if_neg h, lookupJob, if_neg h, ih]

/-- The registry component of a poll when the provider call raises. -/
theorem get_fst_of_exc (provider : String → Except String Transcript)
    (reg : Registry) (job_id : String) (ji : JobInfo) (msg : String)
    (hfound : lookupJob reg job_id = some ji)
    (hexc : provider ji.transcript_id = Except.error msg) :
    (get_transcription_result provider reg job_id).1 = reg := by
  simp only [get_transcription_result, hfound, hexc]

/-- The registry component of a poll when the provider reports
completion. -/
theorem get_fst_of_completed (provider : String → Except String Transcript)
    (reg : Registry) (job_id : String) (ji : JobInfo) (ct : Transcript)
    (hfound : lookupJob reg job_id = some ji)
    (hp : provider ji.transcript_id = Except.ok ct)
    (hst : ct.status = TranscriptStatus.completed) :
    (get_transcription_result provider reg job_id).1 =
      setStatus reg job_id "completed" := by
  simp only [get_transcription_result, hfound, hp, hst]

/-- The registry component of a poll when the provider reports failure. -/
theorem get_fst_of_error (provider : String → Except String Transcript)
    (reg : Registry) (job_id : String) (ji : JobInfo) (ct : Transcript)
    (hfound : lookupJob reg job_id = some ji)
    (hp : provider ji.transcript_id = Except.ok ct)
    (hst : ct.status = TranscriptStatus.error) :
    (get_transcription_result provider reg job_id).1 =
      setStatus reg job_id "error" := by
  simp only [get_transcription_result, hfound, hp, hst]

/-- The registry component of a poll when the provider reports a
non-terminal status. -/
theorem get_fst_other (provider : String → Except String Transcript)
    (reg : Registry) (job_id : String) (ji : JobInfo) (ct : Transcript)
    (hfound : lookupJob reg job_id = some ji)
    (hp : provider ji.transcript_id = Except.ok ct)
    (hnc : ct.status ≠ TranscriptStatus.completed)
    (hne : ct.status ≠ TranscriptStatus.error) :
    (get_transcription_result provider reg job_id).1 = reg := by
  simp only [get_transcription_result, hfound, hp]

/-! ### Claims about the poll handler -/

/-- C8: polling a job id unknown to the registry fails with
`HTTPException(404)`, and no updated registry is produced — the registry is
returned unchanged. -/
theorem C8_unknown_job_404 (provider : String → Except String Transcript)
    (reg : Registry) (job_id : String) (h : lookupJob reg job_id = none) :
    get_transcription_result provider reg job_id =
      (reg, Except.error
        ⟨404, "Transcription job '" ++ job_id ++ "' not found"⟩) := by
  simp only [get_transcription_result, h]

/-- C8 witness on the empty registry. -/
theorem C8_unknown_job_404_witness :
    get_transcription_result (fun _ => Except.error "down") [] "missing" =
      ([], Except.error
        ⟨404, "Transcription job '" ++ "missing" ++ "' not found"⟩) :=
  C8_unknown_job_404 (fun _ => Except.error "down") [] "missing" rfl

/-- C5: if the provider status call raises, the poll nevertheless returns
normally (no HTTP-level failure) with an `error`-status response whose
message carries the exception's message, the registry being returned
unchanged. -/
theorem C5_provider_exception_absorbed
    (provider : String → Except String Transcript)
    (reg : Registry) (job_id : String) (ji : JobInfo) (msg : String)
    (hfound : lookupJob reg job_id = some ji)
    (hexc : provider ji.transcript_id = Except.error msg) :
    get_transcription_result provider reg job_id =
      (reg, Except.ok ⟨"error", some job_id, none,
        "Error checking transcription status: " ++ msg⟩) := by
  simp only [get_transcription_result, hfound, hexc]

/-- C5 witness: a provider that raises "boom". -/
theorem C5_provider_exception_absorbed_witness :
    get_transcription_result (fun _ => Except.error "boom")
        [("j", ⟨"t", "processing", "src", "en"⟩)] "j" =
      ([("j", ⟨"t", "processing", "src", "en"⟩)],
        Except.ok ⟨"error", some "j", none,
          "Error checking transcription status: " ++ "boom"⟩) :=
  C5_provider_exception_absorbed (fun _ => Except.error "boom")
    [("j", ⟨"t", "processing", "src", "en"⟩)] "j"
    ⟨"t", "processing", "src", "en"⟩ "boom" rfl rfl

/-- C10: a provider exception during a poll leaves the registry — in
particular the stored status of the polled job — unchanged, even though the
returned response has status "error"; nothing terminal is recorded, so a
later poll queries the provider afresh. -/
theorem C10_exception_frame (provider : String → Except String Transcript)
    (reg : Registry) (job_id : String) (ji : JobInfo) (msg : String)
    (hfound : lookupJob reg job_id = some ji)
    (hexc : provider ji.transcript_id = Except.error msg) :
    (get_transcription_result provider reg job_id).1 = reg ∧
    statusOf (get_transcription_result provider reg job_id).1 job_id =
      some ji.status ∧
    ∃ resp, (get_transcription_result provider reg job_id).2 =
        Except.ok resp ∧ resp.status = "error" := by
  simp only [get_transcription_result, hfound, hexc]
  simp [statusOf, hfound]

/-- C10 witness: the stored status "processing" survives the provider
exception. -/
theorem C10_exception_frame_witness :
    (get_transcription_result (fun _ => Except.error "boom")
        [("j", ⟨"t", "processing", "src", "en"⟩)] "j").1 =
      [("j", ⟨"t", "processing", "src", "en"⟩)] ∧
    statusOf (get_transcription_result (fun _ => Except.error "boom")
        [("j", ⟨"t", "processing", "src", "en"⟩)] "j").1 "j" =
      some (⟨"t", "processing", "src", "en"⟩ : JobInfo).status ∧
    ∃ resp, (get_transcription_result (fun _ => Except.error "boom")
        [("j", ⟨"t", "processing", "src", "en"⟩)] "j").2 =
        Except.ok resp ∧ resp.status = "error" :=
  C10_exception_frame (fun _ => Except.error "boom")
    [("j", ⟨"t", "processing", "src", "en"⟩)] "j"
    ⟨"t", "processing", "src", "en"⟩ "boom" rfl rfl

/-- C7: when the provider reports a status that is neither completed nor
error, the poll answers `processing` with no caption file and the registry
(hence the stored entry of the job) is returned unchanged. -/
theorem C7_processing_no_mutation (provider : String → Except String Transcript)
    (reg : Registry) (job_id : String) (ji : JobInfo) (ct : Transcript)
    (hfound : lookupJob reg job_id = some ji)
    (hp : provider ji.transcript_id = Except.ok ct)
    (hnc : ct.status ≠ TranscriptStatus.completed)
    (hne : ct.status ≠ TranscriptStatus.error) :
    get_transcription_result provider reg job_id =
      (reg, Except.ok ⟨"processing", some job_id, none,
        "Transcription is still in progress"⟩) := by
  simp only [get_transcription_result, hfound, hp]

/-- C7 witness: provider reports `processing`. -/
theorem C7_processing_no_mutation_witness :
    get_transcription_result
        (fun _ => Except.ok ⟨"t", TranscriptStatus.processing, none, ""⟩)
        [("j", ⟨"t", "processing", "src", "en"⟩)] "j" =
      ([("j", ⟨"t", "processing", "src", "en"⟩)],
        Except.ok ⟨"processing", some "j", none,
          "Transcription is still in progress"⟩) :=
  C7_processing_no_mutation
    (fun _ => Except.ok ⟨"t", TranscriptStatus.processing, none, ""⟩)
    [("j", ⟨"t", "processing", "src", "en"⟩)] "j"
    ⟨"t", "processing", "src", "en"⟩
    ⟨"t", TranscriptStatus.processing, none, ""⟩ rfl rfl
    (by decide) (by decide)

/-- C4 as stated is false on the code: the handler overwrites the stored
status with whatever terminal state the provider reports on each poll.
Concretely: a job stored as `processing` is polled while the provider
reports `error` — the registry stores the terminal status "error"; a second
poll during which the provider reports `completed` then moves the stored
status out of the terminal state, to "completed". -/
theorem C4_counterexample :
    statusOf (get_transcription_result
        (fun _ => Except.ok ⟨"t", TranscriptStatus.error, none, "boom"⟩)
        [("j", ⟨"t", "processing", "src", "en"⟩)] "j").1 "j" = some "error" ∧
    statusOf (get_transcription_result
        (fun _ => Except.ok ⟨"t", TranscriptStatus.completed, none, ""⟩)
        (get_transcription_result
          (fun _ => Except.ok ⟨"t", TranscriptStatus.error, none, "boom"⟩)
          [("j", ⟨"t", "processing", "src", "en"⟩)] "j").1 "j").1 "j" =
      some "completed" :=
  ⟨rfl, rfl⟩

/-- C4 amended: a stored terminal status stays terminal under any further
poll, and it changes only to track a terminal status freshly reported by the
provider; in particular, with a provider whose reports never leave a
terminal state once reached (the intended provider behavior), the stored
status never changes after reaching a terminal state. -/
theorem C4_terminal_stays_terminal (provider : String → Except String Transcript)
    (reg : Registry) (job_id : String) (ji : JobInfo)
    (hfound : lookupJob reg job_id = some ji)
    (hterm : ji.status = "completed" ∨ ji.status = "error") :
    (statusOf (get_transcription_result provider reg job_id).1 job_id =
        some "completed" ∨
      statusOf (get_transcription_result provider reg job_id).1 job_id =
        some "error") ∧
    (statusOf (get_transcription_result provider reg job_id).1 job_id ≠
        some ji.status →
      ∃ ct, provider ji.transcript_id = Except.ok ct ∧
        ((ct.status = TranscriptStatus.completed ∧
            statusOf (get_transcription_result provider reg job_id).1 job_id =
              some "completed") ∨
          (ct.status = TranscriptStatus.error ∧
            statusOf (get_transcription_result provider reg job_id).1 job_id =
              some "error"))) := by
  have hsreg : statusOf reg job_id = some ji.status := by
    simp only [statusOf, hfound]
    rfl
  have hscomp : statusOf (setStatus reg job_id "completed") job_id =
      some "completed" := by
    simp only [statusOf, lookupJob_setStatus, hfound]
    rfl
  have hserr : statusOf (setStatus reg job_id "error") job_id =
      some "error" := by
    simp only [statusOf, lookupJob_setStatus, hfound]
    rfl
  cases hp : provider ji.transcript_id with
  | error e =>
    have hfst := get_fst_of_exc provider reg job_id ji e hfound hp
    rw [hfst, hsreg]
    refine ⟨?_, fun hne => absurd rfl hne⟩
    rcases hterm with h | h
    · exact Or.inl (by rw [h])
    · exact Or.inr (by rw [h])
  | ok ct =>
    cases hst : ct.status with
    | completed =>
      have hfst := get_fst_of_completed provider reg job_id ji ct hfound hp hst
      rw [hfst, hscomp]
      exact ⟨Or.inl rfl, fun _ => ⟨ct, rfl, Or.inl ⟨hst, rfl⟩⟩⟩
    | error =>
      have hfst := get_fst_of_error provider reg job_id ji ct hfound hp hst
      rw [hfst, hserr]
      exact ⟨Or.inr rfl, fun _ => ⟨ct, rfl, Or.inr ⟨hst, rfl⟩⟩⟩
    | queued =>
      have hfst := get_fst_other provider reg job_id ji ct hfound hp
        (by rw [hst]; decide) (by rw [hst]; decide)
      rw [hfst, hsreg]
      refine ⟨?_, fun hne => absurd rfl hne⟩
      rcases hterm with h | h
      · exact Or.inl (by rw [h])
      · exact Or.inr (by rw [h])
    | processing =>
      have hfst := get_fst_other provider reg job_id ji ct hfound hp
        (by rw [hst]; decide) (by rw [hst]; decide)
      rw [hfst, hsreg]
      refine ⟨?_, fun hne => absurd rfl hne⟩
      rcases hterm with h | h
      · exact Or.inl (by rw [h])
      · exact Or.inr (by rw [h])

/-- C4 witness: a completed job polled while the provider reports
`processing` keeps its stored status. -/
theorem C4_terminal_stays_terminal_witness :
    (statusOf (get_transcription_result
        (fun _ => Except.ok ⟨"t", TranscriptStatus.processing, none, ""⟩)
        [("j", ⟨"t", "completed", "src", "en"⟩)] "j").1 "j" =
        some "completed" ∨
      statusOf (get_transcription_result
        (fun _ => Except.ok ⟨"t", TranscriptStatus.processing, none, ""⟩)
        [("j", ⟨"t", "completed", "src", "en"⟩)] "j").1 "j" =
        some "error") ∧
    (statusOf (get_transcription_result
        (fun _ => Except.ok ⟨"t", TranscriptStatus.processing, none, ""⟩)
        [("j", ⟨"t", "completed", "src", "en"⟩)] "j").1 "j" ≠
        some (⟨"t", "completed", "src", "en"⟩ : JobInfo).status →
      ∃ ct, (Except.ok (⟨"t", TranscriptStatus.processing, none, ""⟩ : Transcript) :
            Except String Transcript) =
          Except.ok ct ∧
        ((ct.status = TranscriptStatus.completed ∧
            statusOf (get_transcription_result
              (fun _ => Except.ok ⟨"t", TranscriptStatus.processing, none, ""⟩)
              [("j", ⟨"t", "completed", "src", "en"⟩)] "j").1 "j" =
              some "completed") ∨
          (ct.status = TranscriptStatus.error ∧
            statusOf (get_transcription_result
              (fun _ => Except.ok ⟨"t", TranscriptStatus.processing, none, ""⟩)
              [("j", ⟨"t", "completed", "src", "en"⟩)] "j").1 "j" =
              some "error"))) :=
  C4_terminal_stays_terminal
    (fun _ => Except.ok ⟨"t", TranscriptStatus.processing, none, ""⟩)
    [("j", ⟨"t", "completed", "src", "en"⟩)] "j"
    ⟨"t", "completed", "src", "en"⟩ rfl (Or.inl rfl)

/-! ### Claim about the submit handler -/

/-- C1 evaluated on the code at the failing input: submitting with a video
id absent from the upload store raises `HTTPException(404)` inside the `try`
block, which the `except Exception` clause catches and re-raises as a 500
wrapping the stringified 404 — the caller receives 500, not the intended
404. -/
theorem C1_missing_video_becomes_500 :
    transcribe_video (fun _ => Except.ok "job1") [] []
        ⟨some "nope", none, some "en"⟩ =
      ([], Except.error ⟨500,
        "Failed to start transcription: 404: Video ID 'nope' not found"⟩) :=
  rfl

end CaptionEditor
